import Mathlib

set_option maxHeartbeats 1000000

namespace FeedbackMaster

/-!
Verification model of the feedbackMaster repository: the episode-range
conversion of src/src/App.js and the pipeline-run endpoint of
src/server/index.js (with its variant in src/unnamed/part_001).
-/

/-- Decimal digit character for a value below ten. -/
def digitCh (d : Nat) : Char :=
  if d = 0 then '0' else if d = 1 then '1' else if d = 2 then '2'
  else if d = 3 then '3' else if d = 4 then '4' else if d = 5 then '5'
  else if d = 6 then '6' else if d = 7 then '7' else if d = 8 then '8' else '9'

/-- Fuelled digit expansion; the fuel only bounds the recursion depth so the
result is structural and evaluates inside the kernel. -/
def natDigitsAux : Nat → Nat → List Char
  | 0, _ => []
  | fuel + 1, n =>
    if n < 10 then [digitCh n]
    else natDigitsAux fuel (n / 10) ++ [digitCh (n % 10)]

/-- Decimal digit characters of a natural number, most significant first. -/
def natDigits (n : Nat) : List Char := natDigitsAux (n + 1) n

/-- JavaScript number-to-string conversion for integers, as performed by the
template literals of convertEpisodesToRange. -/
def intRepr (n : Int) : String :=
  if n < 0 then String.mk ('-' :: natDigits (-n).toNat) else String.mk (natDigits n.toNat)

/-- Model of JavaScript String.prototype.trim. -/
def jsTrim (s : String) : String :=
  String.mk (((s.data.dropWhile Char.isWhitespace).reverse.dropWhile Char.isWhitespace).reverse)

/-- Value of a hexadecimal digit character, none otherwise. -/
def hexVal? (c : Char) : Option Nat :=
  if c.isDigit then some (c.toNat - 48)
  else if 'a' ≤ c ∧ c ≤ 'f' then some (c.toNat - 87)
  else if 'A' ≤ c ∧ c ≤ 'F' then some (c.toNat - 55)
  else none

/-- Numeric value of a run of decimal digit characters. -/
def digitsVal (cs : List Char) : Nat := cs.foldl (fun a c => a * 10 + (c.toNat - 48)) 0

/-- Model of JavaScript parseInt with no radix argument: skip leading
whitespace, take an optional sign, auto-detect a 0x/0X hexadecimal prefix,
read the longest run of digits, and yield none (NaN) when no digit follows. -/
def jsParseInt (s : String) : Option Int :=
  let cs := s.data.dropWhile Char.isWhitespace
  let cs1 := if cs.head? = some '-' ∨ cs.head? = some '+' then cs.tail else cs
  let digs :=
    if cs1.head? = some '0' ∧ (cs1.tail.head? = some 'x' ∨ cs1.tail.head? = some 'X') then
      cs1.tail.tail.takeWhile (fun c => (hexVal? c).isSome)
    else cs1.takeWhile Char.isDigit
  if digs.isEmpty then none
  else
    let v : Nat :=
      if cs1.head? = some '0' ∧ (cs1.tail.head? = some 'x' ∨ cs1.tail.head? = some 'X') then
        digs.foldl (fun a c => a * 16 + (hexVal? c).getD 0) 0
      else digitsVal digs
    some (if cs.head? = some '-' then -(v : Int) else (v : Int))

/-- The valid episode numbers computed by convertEpisodesToRange in
src/src/App.js: parse each entry with parseInt after trimming, keep the
numeric entries that are strictly positive, and sort ascending (model of
Array.prototype.sort with the comparator a - b). -/
def validNumbers (episodes : List String) : List Int :=
  ((episodes.map (fun ep => jsParseInt (jsTrim ep))).filterMap
    (fun o =>
      match o with
      | some n => if 0 < n then some n else none
      | none => none)).insertionSort (· ≤ ·)

/-- One emitted token of convertEpisodesToRange: start alone when the run is
a singleton, start-end otherwise. -/
def rangeToken (s e : Int) : String :=
  if s = e then intRepr s else intRepr s ++ "-" ++ intRepr e

/-- The grouping loop of convertEpisodesToRange: greedily extend the current
run s..e while the next number equals e + 1, otherwise flush the token and
start a new run. -/
def buildRanges (s e : Int) : List Int → List String
  | [] => [rangeToken s e]
  | n :: rest =>
    if n = e + 1 then buildRanges s n rest
    else rangeToken s e :: buildRanges n n rest

/-- Model of Array.prototype.join with a comma separator. -/
def joinComma : List String → String
  | [] => ""
  | [a] => a
  | a :: b :: rest => a ++ "," ++ joinComma (b :: rest)

/-- convertEpisodesToRange from src/src/App.js. -/
def convertEpisodesToRange (episodes : List String) : String :=
  match validNumbers episodes with
  | [] => ""
  | v :: rest => joinComma (buildRanges v v rest)

/-- collapseToRange of the spec: collapse a set of integers, given as the
list of their decimal representations fed to convertEpisodesToRange. -/
def collapseToRange (S : List Int) : String :=
  convertEpisodesToRange (S.map intRepr)

/-- Split a character list on a separator character; n separators yield
n + 1 segments. -/
def splitOnChar (sep : Char) : List Char → List (List Char)
  | [] => [[]]
  | c :: rest =>
    match splitOnChar sep rest with
    | [] => if c = sep then [[], []] else [[c]]
    | h :: t => if c = sep then [] :: h :: t else (c :: h) :: t

/-- Parse a token that must consist entirely of decimal digits. -/
def parseDigitsAll (cs : List Char) : Option Nat :=
  if cs ≠ [] ∧ cs.all Char.isDigit then some (digitsVal cs) else none

/-- The integers from s to e inclusive. -/
def intRange (s e : Int) : List Int :=
  (List.range (e + 1 - s).toNat).map (fun (k : Nat) => s + (k : Int))

/-- Modelled from the spec: one token of a collapsed range expression, either
a standalone number start or an inclusive span start-end. -/
def parseToken (cs : List Char) : List Int :=
  match splitOnChar '-' cs with
  | [a] =>
    match parseDigitsAll a with
    | some n => [(n : Int)]
    | none => []
  | [a, b] =>
    match parseDigitsAll a, parseDigitsAll b with
    | some x, some y => intRange (x : Int) (y : Int)
    | _, _ => []
  | _ => []

/-- Modelled from the spec: parseRangeString, the reading back of a collapsed
range string; the repository itself never parses the range string (it is
consumed by the external pipeline script, which is absent from src/). Tokens
are separated by commas and each token denotes itself or its inclusive span. -/
def parseRangeString (s : String) : List Int :=
  ((splitOnChar ',' s.data).map parseToken).flatten

/-!
Model of the pipeline-run endpoint of src/server/index.js. A request body
value can arrive as a boolean (JSON body) or a string (form data), so body
values are modelled as a small dynamic type.
-/

/-- A JavaScript value as it can appear in the parsed request body. -/
inductive JSVal
  | bool (b : Bool)
  | str (s : String)
deriving DecidableEq, Repr

/-- The fields of the run request body, each possibly absent. -/
structure ReqBody where
  projectUrl : Option String
  episodes : Option String
  slackEnabled : Option JSVal
  slackTemplate : Option String
deriving DecidableEq, Repr

/-- A run request: the parsed body plus the server-side temporary path of the
uploaded guide document when multer stored one. -/
structure RunReq where
  body : ReqBody
  file : Option String
deriving DecidableEq, Repr

/-- The JSON error response the endpoint returns on failed validation. -/
structure ErrResp where
  status : Nat
  error : String
deriving DecidableEq, Repr

/-- The slackEnabled mapping of src/server/index.js line 45: the flag value
is y exactly when the body value is boolean true or the string true. -/
def slackFlag (v : JSVal) : String :=
  if v = .bool true ∨ v = .str "true" then "y" else "n"

/-- Argument list built by src/server/index.js lines 37-50: the guide flag
pair is pushed only when a guide path is present. -/
def buildArgs (projectUrl episodes guidePath : String) (slackEnabled : JSVal)
    (slackTemplate : String) : List String :=
  ["-u", projectUrl, "-e", episodes]
    ++ (if guidePath ≠ "" then ["-g", guidePath] else [])
    ++ ["-s", slackFlag slackEnabled]
    ++ (if slackTemplate ≠ "" ∧ jsTrim slackTemplate ≠ "" then ["-t", slackTemplate] else [])

/-- Argument list built by the server variant in src/unnamed/part_001 lines
54-69: identical except that an absent guide path is replaced by the sentinel
literal none. -/
def buildArgsP1 (projectUrl episodes guidePath : String) (slackEnabled : JSVal)
    (slackTemplate : String) : List String :=
  ["-u", projectUrl, "-e", episodes]
    ++ (if guidePath ≠ "" then ["-g", guidePath] else ["-g", "none"])
    ++ ["-s", slackFlag slackEnabled]
    ++ (if slackTemplate ≠ "" ∧ jsTrim slackTemplate ≠ "" then ["-t", slackTemplate] else [])

/-- The validation and argument-construction stage of the run endpoint in
src/server/index.js: destructure the body with its defaults, reject with a
400 response when projectUrl or episodes is falsy (the empty string), and
otherwise produce the argument list handed to spawn. -/
def handleRun (req : RunReq) : Except ErrResp (List String) :=
  let projectUrl := req.body.projectUrl.getD ""
  let episodes := req.body.episodes.getD ""
  let slackEnabled := req.body.slackEnabled.getD (.str "y")
  let slackTemplate := req.body.slackTemplate.getD ""
  let guidePath := req.file.getD ""
  if projectUrl = "" ∨ episodes = "" then
    .error ⟨400, "projectUrl and episodes are required"⟩
  else
    .ok (buildArgs projectUrl episodes guidePath slackEnabled slackTemplate)

/-- Same stage for the server variant in src/unnamed/part_001. -/
def handleRunP1 (req : RunReq) : Except ErrResp (List String) :=
  let projectUrl := req.body.projectUrl.getD ""
  let episodes := req.body.episodes.getD ""
  let slackEnabled := req.body.slackEnabled.getD (.str "y")
  let slackTemplate := req.body.slackTemplate.getD ""
  let guidePath := req.file.getD ""
  if projectUrl = "" ∨ episodes = "" then
    .error ⟨400, "projectUrl and episodes are required"⟩
  else
    .ok (buildArgsP1 projectUrl episodes guidePath slackEnabled slackTemplate)

/-- Number of child processes spawned while serving a request: the handler
returns the 400 response before ever reaching the spawn call, so exactly the
accepted requests spawn one process. -/
def spawnCount (req : RunReq) : Nat :=
  match handleRun req with
  | .error _ => 0
  | .ok _ => 1

/-!
Model of the streaming stage. After spawn, the handler installs four
callbacks: stdout data, stderr data, close and error. Node delivers those
callbacks as a sequence of child events; the handler maps each to SSE writes
and possibly a res.end. A child trace is well formed when it consists of
stream data events followed by exactly one terminal event, which is the
contract of a child process whose spawn either fails once or whose streams
end before the single close.
-/

/-- A callback delivery from the child process object. -/
inductive ChildEvent
  | out (s : String)
  | err (s : String)
  | closed (code : Int)
  | failed (msg : String)
deriving DecidableEq, Repr

/-- True for stdout/stderr data deliveries. -/
def isDataEvent : ChildEvent → Bool
  | .out _ => true
  | .err _ => true
  | .closed _ => false
  | .failed _ => false

/-- One SSE frame written by the handler. -/
inductive StreamEvent
  | stdout (message : String)
  | stderr (message : String)
  | complete (exitCode : Int) (success : Bool) (message : String)
  | error (message : String)
deriving DecidableEq, Repr

/-- True for the two terminal event kinds. -/
def isTerminal : StreamEvent → Bool
  | .complete _ _ _ => true
  | .error _ => true
  | .stdout _ => false
  | .stderr _ => false

/-- True only for complete events. -/
def isComplete : StreamEvent → Bool
  | .complete _ _ _ => true
  | _ => false

/-- True only for stdout events. -/
def isStdout : StreamEvent → Bool
  | .stdout _ => true
  | _ => false

/-- True only for stderr events. -/
def isStderr : StreamEvent → Bool
  | .stderr _ => true
  | _ => false

/-- The message field of the complete frame in src/server/index.js. -/
def completeMessage (code : Int) : String :=
  if code = 0 then "파이프라인이 성공적으로 완료되었습니다."
  else "파이프라인 실행 중 오류가 발생했습니다."

/-- The SSE frame each child callback writes (lines 70-100 of
src/server/index.js). -/
def eventFor : ChildEvent → StreamEvent
  | .out s => .stdout s
  | .err s => .stderr s
  | .closed c => .complete c (c == 0) (completeMessage c)
  | .failed m => .error ("파이프라인 실행 오류: " ++ m)

/-- An observable action on the response channel: an SSE write, or res.end. -/
inductive Action
  | emit (e : StreamEvent)
  | closeChannel
deriving DecidableEq, Repr

/-- The actions a single child callback performs: the close and error
handlers write their frame and then call res.end; the data handlers only
write. -/
def actionsFor : ChildEvent → List Action
  | .out s => [.emit (eventFor (.out s))]
  | .err s => [.emit (eventFor (.err s))]
  | .closed c => [.emit (eventFor (.closed c)), .closeChannel]
  | .failed m => [.emit (eventFor (.failed m)), .closeChannel]

/-- All actions performed over a run, in callback delivery order. -/
def runActions (t : List ChildEvent) : List Action :=
  (t.map actionsFor).flatten

/-- The SSE frames among a list of actions. -/
def emittedEvents (acts : List Action) : List StreamEvent :=
  acts.filterMap (fun a =>
    match a with
    | .emit e => some e
    | .closeChannel => none)

/-- The SSE frames written over a run. -/
def runEvents (t : List ChildEvent) : List StreamEvent :=
  emittedEvents (runActions t)

/-- A child trace is well formed when it is a block of stream data events
followed by exactly one terminal delivery (a clean close or a process
error). -/
def WellFormedRun (t : List ChildEvent) : Prop :=
  ∃ data last, t = data ++ [last] ∧ (∀ d ∈ data, isDataEvent d = true) ∧
    isDataEvent last = false

/-- The stdout payloads of a list of frames, in order. -/
def stdoutPayloads (evs : List StreamEvent) : List String :=
  evs.filterMap (fun e =>
    match e with
    | .stdout m => some m
    | _ => none)

/-- The stdout chunks of a child trace, in delivery order. -/
def outChunks (t : List ChildEvent) : List String :=
  t.filterMap (fun d =>
    match d with
    | .out s => some s
    | _ => none)

/-! Helper lemmas about digits and decimal representations. -/

theorem digitCh_isDigit (d : Nat) (hd : d < 10) : (digitCh d).isDigit = true := by
  interval_cases d <;> decide

theorem digitCh_toNat (d : Nat) (hd : d < 10) : (digitCh d).toNat = 48 + d := by
  interval_cases d <;> decide

theorem digitCh_ne_zeroCh (d : Nat) (hd : d < 10) (h0 : d ≠ 0) : digitCh d ≠ '0' := by
  interval_cases d
  · exact absurd rfl h0
  all_goals decide

theorem isDigit_ne_comma {c : Char} (h : c.isDigit = true) : c ≠ ',' := by
  rintro rfl; exact absurd h (by decide)

theorem isDigit_ne_dash {c : Char} (h : c.isDigit = true) : c ≠ '-' := by
  rintro rfl; exact absurd h (by decide)

theorem isDigit_ne_plus {c : Char} (h : c.isDigit = true) : c ≠ '+' := by
  rintro rfl; exact absurd h (by decide)

theorem isDigit_not_ws {c : Char} (h : c.isDigit = true) : c.isWhitespace = false := by
  by_contra hw
  rw [Bool.not_eq_false] at hw
  have : c = ' ' ∨ c = '\t' ∨ c = '\r' ∨ c = '\n' := by
    simpa [Char.isWhitespace, or_assoc] using hw
  rcases this with rfl | rfl | rfl | rfl <;> exact absurd h (by decide)

theorem digitsVal_append_single (xs : List Char) (c : Char) :
    digitsVal (xs ++ [c]) = 10 * digitsVal xs + (c.toNat - 48) := by
  simp only [digitsVal, List.foldl_append, List.foldl_cons, List.foldl_nil]
  omega

theorem natDigitsAux_spec (fuel : Nat) : ∀ n, n < fuel →
    (∀ c ∈ natDigitsAux fuel n, c.isDigit = true) ∧
    digitsVal (natDigitsAux fuel n) = n ∧
    ∃ d ds, natDigitsAux fuel n = d :: ds ∧ (0 < n → d ≠ '0') := by
  induction fuel with
  | zero => intro n hn; omega
  | succ fuel ih =>
    intro n hn
    by_cases h10 : n < 10
    · refine ⟨?_, ?_, digitCh n, [], ?_⟩
      · intro c hc
        rw [natDigitsAux, if_pos h10] at hc
        simp at hc
        subst hc
        exact digitCh_isDigit n h10
      · rw [natDigitsAux, if_pos h10]
        have := digitCh_toNat n h10
        simp [digitsVal, this]
      · rw [natDigitsAux, if_pos h10]
        exact ⟨rfl, fun hp => digitCh_ne_zeroCh n h10 (by omega)⟩
    · have hdiv : n / 10 < fuel := by omega
      obtain ⟨ihdig, ihval, d, ds, ihcons, ihhead⟩ := ih (n / 10) hdiv
      rw [natDigitsAux, if_neg h10]
      refine ⟨?_, ?_, d, ds ++ [digitCh (n % 10)], ?_⟩
      · intro c hc
        rcases List.mem_append.mp hc with h | h
        · exact ihdig c h
        · simp at h
          subst h
          exact digitCh_isDigit _ (by omega)
      · rw [digitsVal_append_single, ihval, digitCh_toNat _ (by omega)]
        omega
      · rw [ihcons]
        exact ⟨rfl, fun _ => ihhead (by omega)⟩

theorem natDigits_isDigit (n : Nat) : ∀ c ∈ natDigits n, c.isDigit = true :=
  (natDigitsAux_spec (n + 1) n (by omega)).1

theorem natDigits_val (n : Nat) : digitsVal (natDigits n) = n :=
  (natDigitsAux_spec (n + 1) n (by omega)).2.1

theorem natDigits_cons (n : Nat) :
    ∃ d ds, natDigits n = d :: ds ∧ (0 < n → d ≠ '0') :=
  (natDigitsAux_spec (n + 1) n (by omega)).2.2

theorem takeWhile_all {p : Char → Bool} {l : List Char} (h : ∀ c ∈ l, p c = true) :
    l.takeWhile p = l := by
  induction l with
  | nil => rfl
  | cons a l ih =>
    rw [List.takeWhile_cons, h a (by simp)]
    simp [ih (fun c hc => h c (by simp [hc]))]

theorem dropWhile_all_neg {p : Char → Bool} {l : List Char} (h : ∀ c ∈ l, p c = false) :
    l.dropWhile p = l := by
  cases l with
  | nil => rfl
  | cons a l =>
    rw [List.dropWhile_cons, h a (by simp)]
    simp

/-- The parseInt model reads a positive decimal representation back exactly. -/
theorem jsParseInt_natDigits (n : Nat) (hn : 0 < n) :
    jsParseInt (String.mk (natDigits n)) = some (n : Int) := by
  obtain ⟨d, ds, hcons, hhead⟩ := natDigits_cons n
  have hdig := natDigits_isDigit n
  have hd : d.isDigit = true := hdig d (by rw [hcons]; simp)
  have hcs : (String.mk (natDigits n)).data.dropWhile Char.isWhitespace = d :: ds := by
    show (natDigits n).dropWhile Char.isWhitespace = d :: ds
    rw [dropWhile_all_neg (fun c hc => isDigit_not_ws (hdig c hc)), hcons]
  rw [jsParseInt]
  simp only [hcs]
  have hnd : ¬((d :: ds).head? = some '-' ∨ (d :: ds).head? = some '+') := by
    simp only [List.head?_cons]
    rintro (h | h) <;> (injection h with h)
    · exact isDigit_ne_dash hd h
    · exact isDigit_ne_plus hd h
  rw [if_neg hnd]
  have hnhex : ¬((d :: ds).head? = some '0' ∧
      ((d :: ds).tail.head? = some 'x' ∨ (d :: ds).tail.head? = some 'X')) := by
    rintro ⟨h, -⟩
    injection h with h
    exact hhead hn h
  rw [if_neg hnhex]
  have htake : (d :: ds).takeWhile Char.isDigit = d :: ds := by
    apply takeWhile_all
    intro c hc
    exact hdig c (by rw [hcons]; exact hc)
  rw [htake]
  have hneg : ¬((d :: ds).head? = some '-') := by
    simp only [List.head?_cons]
    intro h
    injection h with h
    exact isDigit_ne_dash hd h
  rw [if_neg (show ¬((d :: ds).isEmpty = true) by simp), if_neg hnhex, if_neg hneg]
  have hval : digitsVal (d :: ds) = n := by rw [← hcons]; exact natDigits_val n
  rw [hval]

theorem jsTrim_of_digits (l : List Char) (h : ∀ c ∈ l, c.isDigit = true) :
    jsTrim (String.mk l) = String.mk l := by
  show String.mk _ = String.mk l
  have h1 : l.dropWhile Char.isWhitespace = l :=
    dropWhile_all_neg (fun c hc => isDigit_not_ws (h c hc))
  rw [show (String.mk l).data = l from rfl, h1]
  have h2 : l.reverse.dropWhile Char.isWhitespace = l.reverse :=
    dropWhile_all_neg (fun c hc => isDigit_not_ws (h c (List.mem_reverse.mp hc)))
  rw [h2, List.reverse_reverse]

theorem intRepr_of_pos (n : Int) (hn : 0 < n) :
    intRepr n = String.mk (natDigits n.toNat) := by
  rw [intRepr, if_neg (by omega)]

/-- Reading back a positive integer from its printed representation. -/
theorem jsParseInt_jsTrim_intRepr (n : Int) (hn : 0 < n) :
    jsParseInt (jsTrim (intRepr n)) = some n := by
  rw [intRepr_of_pos n hn, jsTrim_of_digits _ (natDigits_isDigit _),
    jsParseInt_natDigits n.toNat (by omega)]
  congr 1
  omega

/-! Helper lemmas about splitting on a separator character. -/

theorem splitOnChar_no_sep (sep : Char) (l : List Char) (h : ∀ c ∈ l, c ≠ sep) :
    splitOnChar sep l = [l] := by
  induction l with
  | nil => rfl
  | cons a l ih =>
    rw [splitOnChar, ih (fun c hc => h c (by simp [hc]))]
    simp [h a (by simp)]

/-- splitOnChar never returns the empty list of segments. -/
theorem splitOnChar_ne_nil (sep : Char) (l : List Char) : splitOnChar sep l ≠ [] := by
  cases l with
  | nil => rw [splitOnChar]; simp
  | cons a l =>
    rw [splitOnChar]
    cases splitOnChar sep l with
    | nil => by_cases h : a = sep <;> simp [h]
    | cons h t => by_cases h' : a = sep <;> simp [h']

theorem splitOnChar_cons_sep (sep : Char) (xs ys : List Char) (h : ∀ c ∈ xs, c ≠ sep) :
    splitOnChar sep (xs ++ sep :: ys) = xs :: splitOnChar sep ys := by
  induction xs with
  | nil =>
    simp only [List.nil_append]
    rw [splitOnChar]
    cases hy : splitOnChar sep ys with
    | nil => exact absurd hy (splitOnChar_ne_nil sep ys)
    | cons h' t' => simp
  | cons a xs ih =>
    simp only [List.cons_append]
    rw [splitOnChar, ih (fun c hc => h c (by simp [hc]))]
    simp [h a (by simp)]

theorem splitOnChar_joinComma (ts : List String) (hne : ts ≠ [])
    (hfree : ∀ t ∈ ts, ∀ c ∈ t.data, c ≠ ',') :
    splitOnChar ',' (joinComma ts).data = ts.map String.data := by
  induction ts with
  | nil => exact absurd rfl hne
  | cons a ts ih =>
    cases ts with
    | nil =>
      rw [joinComma]
      simp only [List.map_cons, List.map_nil]
      exact splitOnChar_no_sep ',' a.data (hfree a (by simp) )
    | cons b ts' =>
      rw [joinComma]
      have hdata : (a ++ "," ++ joinComma (b :: ts')).data
          = a.data ++ ',' :: (joinComma (b :: ts')).data := by
        simp [String.data_append]
      rw [hdata, splitOnChar_cons_sep ',' _ _ (hfree a (by simp)),
        ih (by simp) (fun t ht => hfree t (by simp [ht]))]
      simp

/-! Roundtrip of the emitted tokens through the spec-modelled parser. -/

theorem parseDigitsAll_natDigits (n : Nat) :
    parseDigitsAll (natDigits n) = some n := by
  have hall : (natDigits n).all Char.isDigit = true :=
    List.all_eq_true.mpr (natDigits_isDigit n)
  obtain ⟨d, ds, hcons, -⟩ := natDigits_cons n
  rw [parseDigitsAll, if_pos ⟨by rw [hcons]; simp, hall⟩, natDigits_val]

theorem intRange_self (s : Int) : intRange s s = [s] := by
  rw [intRange]
  have h1 : (s + 1 - s).toNat = 1 := by omega
  rw [h1]
  simp [List.range_succ]

theorem intRange_succ_right (s e : Int) (h : s ≤ e + 1) :
    intRange s (e + 1) = intRange s e ++ [e + 1] := by
  rw [intRange, intRange]
  have h1 : (e + 1 + 1 - s).toNat = (e + 1 - s).toNat + 1 := by omega
  rw [h1, List.range_succ]
  simp only [List.map_append, List.map_cons, List.map_nil]
  congr 2
  omega

theorem data_rangeToken_eq (s e : Int) (hs : 0 < s) (he : 0 < e) (hne : s ≠ e) :
    (rangeToken s e).data = natDigits s.toNat ++ '-' :: natDigits e.toNat := by
  rw [rangeToken, if_neg hne, intRepr_of_pos s hs, intRepr_of_pos e he]
  rw [String.data_append, String.data_append]
  rw [show (String.mk (natDigits s.toNat)).data = natDigits s.toNat from rfl,
    show ("-" : String).data = ['-'] from rfl,
    show (String.mk (natDigits e.toNat)).data = natDigits e.toNat from rfl]
  simp

theorem parseToken_rangeToken (s e : Int) (hs : 0 < s) (hse : s ≤ e) :
    parseToken (rangeToken s e).data = intRange s e := by
  by_cases h : s = e
  · subst h
    rw [rangeToken, if_pos rfl, intRepr_of_pos s hs]
    rw [show (String.mk (natDigits s.toNat)).data = natDigits s.toNat from rfl]
    rw [parseToken,
      splitOnChar_no_sep '-' _ (fun c hc => isDigit_ne_dash (natDigits_isDigit _ c hc))]
    show (match parseDigitsAll (natDigits s.toNat) with
      | some n => [(n : Int)]
      | none => []) = intRange s s
    rw [parseDigitsAll_natDigits, intRange_self]
    simp [Int.toNat_of_nonneg (by omega : (0 : Int) ≤ s)]
  · rw [data_rangeToken_eq s e hs (by omega) h, parseToken,
      splitOnChar_cons_sep '-' _ _
        (fun c hc => isDigit_ne_dash (natDigits_isDigit _ c hc)),
      splitOnChar_no_sep '-' _ (fun c hc => isDigit_ne_dash (natDigits_isDigit _ c hc))]
    show (match parseDigitsAll (natDigits s.toNat), parseDigitsAll (natDigits e.toNat) with
      | some x, some y => intRange (x : Int) (y : Int)
      | _, _ => []) = intRange s e
    rw [parseDigitsAll_natDigits, parseDigitsAll_natDigits]
    simp [Int.toNat_of_nonneg (by omega : (0 : Int) ≤ s),
      Int.toNat_of_nonneg (by omega : (0 : Int) ≤ e)]

theorem buildRanges_ne_nil (rest : List Int) (s e : Int) :
    buildRanges s e rest ≠ [] := by
  induction rest generalizing s e with
  | nil => rw [buildRanges]; simp
  | cons n rest ih =>
    rw [buildRanges]
    split
    · exact ih s n
    · simp

theorem rangeToken_comma_free (s e : Int) (hs : 0 < s) (he : 0 < e) :
    ∀ c ∈ (rangeToken s e).data, c ≠ ',' := by
  intro c hc
  by_cases h : s = e
  · subst h
    rw [rangeToken, if_pos rfl, intRepr_of_pos s hs] at hc
    exact isDigit_ne_comma (natDigits_isDigit _ c hc)
  · rw [data_rangeToken_eq s e hs he h] at hc
    rcases List.mem_append.mp hc with h' | h'
    · exact isDigit_ne_comma (natDigits_isDigit _ c h')
    · rcases List.mem_cons.mp h' with rfl | h'
      · decide
      · exact isDigit_ne_comma (natDigits_isDigit _ c h')

theorem buildRanges_comma_free (rest : List Int) : ∀ s e : Int, 0 < s → s ≤ e →
    (∀ x ∈ rest, 0 < x) →
    ∀ t ∈ buildRanges s e rest, ∀ c ∈ t.data, c ≠ ',' := by
  induction rest with
  | nil =>
    intro s e hs hse _ t ht
    rw [buildRanges] at ht
    simp at ht
    subst ht
    exact rangeToken_comma_free s e hs (by omega)
  | cons n rest ih =>
    intro s e hs hse hpos t ht
    rw [buildRanges] at ht
    by_cases hn : n = e + 1
    · rw [if_pos hn] at ht
      exact ih s n hs (by omega) (fun x hx => hpos x (by simp [hx])) t ht
    · rw [if_neg hn] at ht
      rcases List.mem_cons.mp ht with rfl | ht
      · exact rangeToken_comma_free s e hs (by omega)
      · have hnpos : 0 < n := hpos n (by simp)
        exact ih n n hnpos le_rfl (fun x hx => hpos x (by simp [hx])) t ht

/-- Parsing the emitted tokens recovers exactly the grouped numbers. -/
theorem buildRanges_parse (rest : List Int) : ∀ s e : Int, 0 < s → s ≤ e →
    (∀ x ∈ rest, 0 < x) →
    ((buildRanges s e rest).map (fun t => parseToken t.data)).flatten
      = intRange s e ++ rest := by
  induction rest with
  | nil =>
    intro s e hs hse _
    rw [buildRanges]
    simp [parseToken_rangeToken s e hs hse]
  | cons n rest ih =>
    intro s e hs hse hpos
    rw [buildRanges]
    by_cases hn : n = e + 1
    · rw [if_pos hn]
      subst hn
      rw [ih s (e + 1) hs (by omega) (fun x hx => hpos x (by simp [hx]))]
      rw [intRange_succ_right s e (by omega)]
      simp
    · rw [if_neg hn]
      simp only [List.map_cons, List.flatten_cons]
      have hnpos : 0 < n := hpos n (by simp)
      rw [ih n n hnpos le_rfl (fun x hx => hpos x (by simp [hx]))]
      rw [parseToken_rangeToken s e hs hse, intRange_self]
      simp

/-! Lemmas about validNumbers and the full collapse/parse roundtrip. -/

theorem validNumbers_pos (l : List String) : ∀ x ∈ validNumbers l, 0 < x := by
  intro x hx
  rw [validNumbers] at hx
  have hx' := (List.perm_insertionSort (· ≤ ·) _).mem_iff.mp hx
  rcases List.mem_filterMap.mp hx' with ⟨o, -, hsome⟩
  cases o with
  | none => exact absurd hsome (by simp)
  | some n =>
    have hsome' : (if 0 < n then some n else none) = some x := hsome
    by_cases hp : 0 < n
    · rw [if_pos hp] at hsome'
      injection hsome' with hsome'
      omega
    · rw [if_neg hp] at hsome'
      cases hsome'

theorem validNumbers_sorted (l : List String) : List.Sorted (· ≤ ·) (validNumbers l) := by
  rw [validNumbers]
  exact List.sorted_insertionSort _ _

theorem filterMap_eq_self_of {α : Type} (f : α → Option α) (l : List α)
    (h : ∀ a ∈ l, f a = some a) : l.filterMap f = l := by
  induction l with
  | nil => rfl
  | cons a l ih =>
    rw [List.filterMap_cons, h a (by simp), ih (fun b hb => h b (by simp [hb]))]

/-- Feeding a sorted list of positive numbers back through validNumbers is
the identity. -/
theorem validNumbers_map_intRepr (v : List Int) (hpos : ∀ x ∈ v, 0 < x)
    (hsort : List.Sorted (· ≤ ·) v) :
    validNumbers (v.map intRepr) = v := by
  rw [validNumbers, List.map_map]
  have h1 : v.map ((fun ep => jsParseInt (jsTrim ep)) ∘ intRepr)
      = v.map (fun x => some x) :=
    List.map_congr_left (fun x hx => jsParseInt_jsTrim_intRepr x (hpos x hx))
  rw [h1, List.filterMap_map]
  have h2 : v.filterMap ((fun o =>
      match o with
      | some n => if 0 < n then some n else none
      | none => none) ∘ (fun x => some x)) = v := by
    apply filterMap_eq_self_of
    intro a ha
    show (if 0 < a then some a else none) = some a
    rw [if_pos (hpos a ha)]
  rw [h2]
  exact hsort.insertionSort_eq

/-- Parsing back the collapsed string recovers exactly the valid numbers. -/
theorem parseRangeString_convert (l : List String) :
    parseRangeString (convertEpisodesToRange l) = validNumbers l := by
  have hpos := validNumbers_pos l
  rw [convertEpisodesToRange]
  cases hv : validNumbers l with
  | nil => decide
  | cons v rest =>
    have hpos' : ∀ x ∈ v :: rest, 0 < x := fun x hx => hpos x (by rw [hv]; exact hx)
    have hvpos : 0 < v := hpos' v (by simp)
    have hrest : ∀ x ∈ rest, 0 < x := fun x hx => hpos' x (by simp [hx])
    show parseRangeString (joinComma (buildRanges v v rest)) = v :: rest
    rw [parseRangeString,
      splitOnChar_joinComma _ (buildRanges_ne_nil _ _ _)
        (buildRanges_comma_free rest v v hvpos le_rfl hrest),
      List.map_map,
      show parseToken ∘ String.data = (fun t => parseToken t.data) from rfl,
      buildRanges_parse rest v v hvpos le_rfl hrest, intRange_self]
    simp

/-- Collapsing is idempotent through the spec-modelled parser. -/
theorem collapse_idempotent (S : List Int) :
    collapseToRange (parseRangeString (collapseToRange S)) = collapseToRange S := by
  simp only [collapseToRange]
  rw [parseRangeString_convert]
  have h := validNumbers_map_intRepr (validNumbers (S.map intRepr))
    (validNumbers_pos _) (validNumbers_sorted _)
  rw [convertEpisodesToRange, convertEpisodesToRange, h]

/-- The collapsed string only depends on the multiset of entries. -/
theorem convert_perm_invariant (l l' : List String) (h : l.Perm l') :
    convertEpisodesToRange l = convertEpisodesToRange l' := by
  have hv : validNumbers l = validNumbers l' := by
    rw [validNumbers, validNumbers]
    exact List.eq_of_perm_of_sorted
      ((List.perm_insertionSort _ _).trans
        (((h.map _).filterMap _).trans (List.perm_insertionSort _ _).symm))
      (List.sorted_insertionSort _ _) (List.sorted_insertionSort _ _)
  rw [convertEpisodesToRange, convertEpisodesToRange, hv]

/-! Helper lemmas about the streaming model. -/

theorem emittedEvents_actionsFor (d : ChildEvent) :
    emittedEvents (actionsFor d) = [eventFor d] := by
  cases d <;> rfl

theorem emittedEvents_append (a b : List Action) :
    emittedEvents (a ++ b) = emittedEvents a ++ emittedEvents b := by
  rw [emittedEvents, emittedEvents, emittedEvents, List.filterMap_append]

theorem runActions_cons (d : ChildEvent) (t : List ChildEvent) :
    runActions (d :: t) = actionsFor d ++ runActions t := by
  rw [runActions, runActions, List.map_cons, List.flatten_cons]

theorem runActions_append (s t : List ChildEvent) :
    runActions (s ++ t) = runActions s ++ runActions t := by
  rw [runActions, runActions, runActions, List.map_append, List.flatten_append]

theorem runActions_singleton (d : ChildEvent) : runActions [d] = actionsFor d := by
  rw [runActions]
  simp

/-- Every child callback writes exactly its own frame, so the frames of a run
are the per-event frames in delivery order. -/
theorem runEvents_eq_map (t : List ChildEvent) : runEvents t = t.map eventFor := by
  induction t with
  | nil => rfl
  | cons d t ih =>
    rw [runEvents, runActions_cons, emittedEvents_append, emittedEvents_actionsFor]
    rw [show emittedEvents (runActions t) = runEvents t from rfl, ih]
    simp

theorem actionsFor_data {d : ChildEvent} (h : isDataEvent d = true) :
    actionsFor d = [Action.emit (eventFor d)] := by
  cases d <;> simp_all [isDataEvent, actionsFor]

theorem runActions_data (data : List ChildEvent)
    (h : ∀ d ∈ data, isDataEvent d = true) :
    runActions data = data.map (fun d => Action.emit (eventFor d)) := by
  induction data with
  | nil => rfl
  | cons d t ih =>
    rw [runActions_cons, actionsFor_data (h d (by simp)),
      ih (fun x hx => h x (by simp [hx]))]
    simp

theorem eventFor_data_not_terminal {d : ChildEvent} (h : isDataEvent d = true) :
    isTerminal (eventFor d) = false := by
  cases d <;> simp_all [isDataEvent, eventFor, isTerminal]

theorem eventFor_data_not_complete {d : ChildEvent} (h : isDataEvent d = true) :
    isComplete (eventFor d) = false := by
  cases d <;> simp_all [isDataEvent, eventFor, isComplete]

theorem stdoutPayloads_append (a b : List StreamEvent) :
    stdoutPayloads (a ++ b) = stdoutPayloads a ++ stdoutPayloads b := by
  rw [stdoutPayloads, stdoutPayloads, stdoutPayloads, List.filterMap_append]

theorem stdoutPayloads_map_eventFor (t : List ChildEvent) :
    stdoutPayloads (t.map eventFor) = outChunks t := by
  rw [stdoutPayloads, outChunks, List.filterMap_map]
  congr 1
  funext d
  cases d <;> rfl

/-! The claims. -/

/-- C1: for every well-formed run, exactly one terminal event (complete or
error) is emitted, it is the last event of the run, it comes strictly after
every stdout/stderr event, and the push channel is closed exactly once,
immediately after that terminal event is flushed. -/
theorem run_terminal_unique_last_close (t : List ChildEvent)
    (h : WellFormedRun t) :
    ∃ evs e, runEvents t = evs ++ [e] ∧ isTerminal e = true ∧
      (∀ x ∈ evs, isTerminal x = false) ∧
      ((runEvents t).filter isTerminal).length = 1 ∧
      runActions t = evs.map Action.emit ++ [Action.emit e, Action.closeChannel] ∧
      (runActions t).count Action.closeChannel = 1 := by
  obtain ⟨data, last, rfl, hdata, hlast⟩ := h
  have hterm : isTerminal (eventFor last) = true := by
    cases last <;> simp_all [isDataEvent, eventFor, isTerminal]
  have hfilter : (List.map eventFor data).filter isTerminal = [] := by
    rw [List.filter_eq_nil_iff]
    intro a ha
    rcases List.mem_map.mp ha with ⟨d, hd, rfl⟩
    simp [eventFor_data_not_terminal (hdata d hd)]
  have hacts : actionsFor last = [Action.emit (eventFor last), Action.closeChannel] := by
    cases last <;> simp_all [isDataEvent, actionsFor]
  refine ⟨data.map eventFor, eventFor last, ?_, hterm, ?_, ?_, ?_, ?_⟩
  · rw [runEvents_eq_map]
    simp
  · intro x hx
    rcases List.mem_map.mp hx with ⟨d, hd, rfl⟩
    exact eventFor_data_not_terminal (hdata d hd)
  · rw [runEvents_eq_map, List.map_append, List.filter_append, hfilter]
    simp [hterm]
  · rw [runActions_append, runActions_data data hdata, runActions_singleton, hacts,
      List.map_map]
    rfl
  · rw [runActions_append, runActions_data data hdata, runActions_singleton, hacts]
    rw [List.count_append]
    have h0 : (data.map (fun d => Action.emit (eventFor d))).count Action.closeChannel
        = 0 := by
      rw [List.count_eq_zero]
      intro hmem
      rcases List.mem_map.mp hmem with ⟨d, -, hd⟩
      cases hd
    rw [h0]
    rfl

/-- C1 witness: a run with one stdout chunk, one stderr chunk and a clean
exit satisfies the terminal-event and channel-close shape. -/
theorem run_terminal_unique_last_close_witness :
    ∃ evs e,
      runEvents [ChildEvent.out "a", ChildEvent.err "b", ChildEvent.closed 0]
        = evs ++ [e] ∧ isTerminal e = true ∧
      (∀ x ∈ evs, isTerminal x = false) ∧
      ((runEvents [ChildEvent.out "a", ChildEvent.err "b",
        ChildEvent.closed 0]).filter isTerminal).length = 1 ∧
      runActions [ChildEvent.out "a", ChildEvent.err "b", ChildEvent.closed 0]
        = evs.map Action.emit ++ [Action.emit e, Action.closeChannel] ∧
      (runActions [ChildEvent.out "a", ChildEvent.err "b",
        ChildEvent.closed 0]).count Action.closeChannel = 1 :=
  run_terminal_unique_last_close _
    ⟨[ChildEvent.out "a", ChildEvent.err "b"], ChildEvent.closed 0, rfl,
      by decide, by decide⟩

/-- C2: a request whose projectUrl or episodes field is empty or missing is
rejected with a 400 response naming the required fields, and no child
process is spawned. -/
theorem missing_fields_rejected (req : RunReq)
    (h : req.body.projectUrl = none ∨ req.body.projectUrl = some "" ∨
      req.body.episodes = none ∨ req.body.episodes = some "") :
    handleRun req = .error ⟨400, "projectUrl and episodes are required"⟩ ∧
    spawnCount req = 0 := by
  have hcond : req.body.projectUrl.getD "" = "" ∨ req.body.episodes.getD "" = "" := by
    rcases h with h | h | h | h <;> simp [h]
  have h1 : handleRun req = .error ⟨400, "projectUrl and episodes are required"⟩ := by
    simp only [handleRun]
    rw [if_pos hcond]
  refine ⟨h1, ?_⟩
  rw [spawnCount, h1]

/-- C2 witness: a request with no projectUrl is rejected and spawns
nothing. -/
theorem missing_fields_rejected_witness :
    handleRun ⟨⟨none, some "1", none, none⟩, none⟩
      = .error ⟨400, "projectUrl and episodes are required"⟩ ∧
    spawnCount ⟨⟨none, some "1", none, none⟩, none⟩ = 0 :=
  missing_fields_rejected ⟨⟨none, some "1", none, none⟩, none⟩ (Or.inl rfl)

/-- C3: convertEpisodesToRange parses entries as integers, discards
non-numeric and non-positive entries, sorts ascending, collapses consecutive
runs greedily, emits start for singleton runs and start-end otherwise, joins
with commas; {1,2,3} maps to 1-3, {1,3,4,6} maps to 1,3-4,6, and an empty or
fully discarded input maps to the empty string. -/
theorem convertEpisodes_spec_examples :
    convertEpisodesToRange ["1", "2", "3"] = "1-3" ∧
    convertEpisodesToRange ["1", "3", "4", "6"] = "1,3-4,6" ∧
    convertEpisodesToRange [] = "" ∧
    convertEpisodesToRange ["abc", "0", "-27", " "] = "" ∧
    convertEpisodesToRange ["6", "1", "4", "3"] = "1,3-4,6" ∧
    convertEpisodesToRange ["10", "11", "12", "2"] = "2,10-12" ∧
    convertEpisodesToRange ["5"] = "5" := by decide

/-- C4 counterexample: the entry lists [1,1,2] and [1,2] denote the same
integer set {1,2} yet collapse to different strings, and the duplicated
value 1 is covered twice in the first output. -/
theorem convert_duplicates_counterexample :
    convertEpisodesToRange ["1", "1", "2"] = "1,1-2" ∧
    convertEpisodesToRange ["1", "2"] = "1-2" ∧
    convertEpisodesToRange ["1", "1", "2"] ≠ convertEpisodesToRange ["1", "2"] := by
  decide

/-- C4 (amended): convertEpisodesToRange is deterministic and independent of
input order (any permutation of the entry list collapses to the same
string), and collapsing is idempotent through the spec-modelled parser:
collapseToRange (parseRangeString (collapseToRange S)) = collapseToRange S
for every integer list S. Duplicate entries, however, are not deduplicated:
a duplicated value is emitted twice, so the canonical-form guarantee holds
only up to multiplicity of the entries, not for the denoted set. -/
theorem convert_deterministic_idempotent :
    (∀ l l' : List String, l.Perm l' →
      convertEpisodesToRange l = convertEpisodesToRange l') ∧
    (∀ S : List Int,
      collapseToRange (parseRangeString (collapseToRange S)) = collapseToRange S) :=
  ⟨convert_perm_invariant, collapse_idempotent⟩

/-- C4 witness: order independence on a concrete permutation and idempotence
on a concrete set. -/
theorem convert_deterministic_idempotent_witness :
    convertEpisodesToRange ["3", "1", "2"] = convertEpisodesToRange ["1", "2", "3"] ∧
    collapseToRange (parseRangeString (collapseToRange [1, 2, 4]))
      = collapseToRange [1, 2, 4] :=
  ⟨convert_deterministic_idempotent.1 _ _ (by decide),
    convert_deterministic_idempotent.2 [1, 2, 4]⟩

/-- C5: a child process that exits cleanly with code c yields the terminal
event complete with exitCode c and success true exactly when c = 0. -/
theorem clean_exit_complete (data : List ChildEvent) (c : Int)
    (h : ∀ d ∈ data, isDataEvent d = true) :
    runEvents (data ++ [ChildEvent.closed c])
      = data.map eventFor ++ [.complete c (c == 0) (completeMessage c)] ∧
    ((c == 0) = true ↔ c = 0) ∧
    (runEvents (data ++ [ChildEvent.closed c])).getLast?
      = some (.complete c (c == 0) (completeMessage c)) ∧
    (∀ e ∈ runEvents (data ++ [ChildEvent.closed c]),
      isStdout e = true ∨ isStderr e = true
        ∨ e = .complete c (c == 0) (completeMessage c)) := by
  have h1 : runEvents (data ++ [ChildEvent.closed c])
      = data.map eventFor ++ [.complete c (c == 0) (completeMessage c)] := by
    rw [runEvents_eq_map, List.map_append]
    rfl
  refine ⟨h1, beq_iff_eq, by rw [h1, List.getLast?_concat], ?_⟩
  intro e he
  rw [h1] at he
  rcases List.mem_append.mp he with he | he
  · rcases List.mem_map.mp he with ⟨d, hd, rfl⟩
    have hde := h d hd
    cases d <;> simp_all [isDataEvent, eventFor, isStdout, isStderr]
  · rcases List.mem_singleton.mp he with rfl
    right; right; rfl

/-- C5 witness: exit code 2 yields complete with success false and
exitCode 2. -/
theorem clean_exit_complete_witness :
    runEvents [ChildEvent.closed 2]
      = [StreamEvent.complete 2 false (completeMessage 2)] ∧
    (false = true ↔ (2 : Int) = 0) ∧
    (runEvents [ChildEvent.closed 2]).getLast?
      = some (StreamEvent.complete 2 false (completeMessage 2)) ∧
    (∀ e ∈ runEvents [ChildEvent.closed 2],
      isStdout e = true ∨ isStderr e = true
        ∨ e = StreamEvent.complete 2 false (completeMessage 2)) :=
  clean_exit_complete [] 2 (by decide)

/-- C6: a runtime fault (process killed, stream fault) ends the run with an
error event carrying a human-readable message, and no complete event is
ever emitted in such a run. -/
theorem runtime_fault_error (data : List ChildEvent) (msg : String)
    (h : ∀ d ∈ data, isDataEvent d = true) :
    runEvents (data ++ [ChildEvent.failed msg])
      = data.map eventFor ++ [.error ("파이프라인 실행 오류: " ++ msg)] ∧
    (∀ e ∈ runEvents (data ++ [ChildEvent.failed msg]), isComplete e = false) := by
  have h1 : runEvents (data ++ [ChildEvent.failed msg])
      = data.map eventFor ++ [.error ("파이프라인 실행 오류: " ++ msg)] := by
    rw [runEvents_eq_map, List.map_append]
    rfl
  refine ⟨h1, ?_⟩
  intro e he
  rw [h1] at he
  rcases List.mem_append.mp he with he | he
  · rcases List.mem_map.mp he with ⟨d, hd, rfl⟩
    exact eventFor_data_not_complete (h d hd)
  · rcases List.mem_singleton.mp he with rfl
    rfl

/-- C6 witness: a kill after one stdout chunk ends with error, not
complete. -/
theorem runtime_fault_error_witness :
    runEvents [ChildEvent.out "x", ChildEvent.failed "killed"]
      = [ChildEvent.out "x"].map eventFor
        ++ [StreamEvent.error ("파이프라인 실행 오류: " ++ "killed")] ∧
    (∀ e ∈ runEvents [ChildEvent.out "x", ChildEvent.failed "killed"],
      isComplete e = false) :=
  runtime_fault_error [ChildEvent.out "x"] "killed" (by decide)

/-- C7: when spawn itself fails no stream ever opens, so the only event of
the run is a single error event, with zero stdout and zero stderr events,
and that outcome is distinguishable from any clean exit. -/
theorem spawn_failure_single_error (msg : String) :
    runEvents [ChildEvent.failed msg]
      = [StreamEvent.error ("파이프라인 실행 오류: " ++ msg)] ∧
    (∀ e ∈ runEvents [ChildEvent.failed msg],
      isStdout e = false ∧ isStderr e = false) ∧
    (∀ (c : Int) (b : Bool) (m : String),
      StreamEvent.error ("파이프라인 실행 오류: " ++ msg)
        ≠ StreamEvent.complete c b m) ∧
    (∀ c : Int, runEvents [ChildEvent.failed msg] ≠ runEvents [ChildEvent.closed c]) := by
  refine ⟨rfl, ?_, ?_, ?_⟩
  · intro e he
    rcases List.mem_singleton.mp he with rfl
    exact ⟨rfl, rfl⟩
  · intro c b m hne
    cases hne
  · intro c hne
    have h'' : ([StreamEvent.error ("파이프라인 실행 오류: " ++ msg)] : List StreamEvent)
        = [StreamEvent.complete c (c == 0) (completeMessage c)] := hne
    injection h'' with h1 h2
    cases h1

/-- C8: a run whose child writes chunks to stdout and exits 0 emits stdout
events whose payloads are exactly those chunks in read order (no loss, no
duplication), with the byte concatenations equal, followed by exactly one
complete event with success true and exitCode 0. -/
theorem stdout_payloads_exact (data : List ChildEvent)
    (h : ∀ d ∈ data, isDataEvent d = true) :
    stdoutPayloads (runEvents (data ++ [ChildEvent.closed 0])) = outChunks data ∧
    String.join (stdoutPayloads (runEvents (data ++ [ChildEvent.closed 0])))
      = String.join (outChunks data) ∧
    runEvents (data ++ [ChildEvent.closed 0])
      = data.map eventFor ++ [.complete 0 true (completeMessage 0)] ∧
    ((runEvents (data ++ [ChildEvent.closed 0])).filter isComplete).length = 1 := by
  have h1 : runEvents (data ++ [ChildEvent.closed 0])
      = data.map eventFor ++ [.complete 0 true (completeMessage 0)] := by
    rw [runEvents_eq_map, List.map_append]
    rfl
  have h2 : stdoutPayloads (runEvents (data ++ [ChildEvent.closed 0]))
      = outChunks data := by
    rw [h1, stdoutPayloads_append, stdoutPayloads_map_eventFor]
    simp [stdoutPayloads]
  refine ⟨h2, by rw [h2], h1, ?_⟩
  rw [h1, List.filter_append]
  have h3 : (data.map eventFor).filter isComplete = [] := by
    rw [List.filter_eq_nil_iff]
    intro a ha
    rcases List.mem_map.mp ha with ⟨d, hd, rfl⟩
    simp [eventFor_data_not_complete (h d hd)]
  rw [h3]
  rfl

/-- C8 witness: two stdout chunks and an interleaved stderr chunk are
forwarded exactly, followed by one successful complete event. -/
theorem stdout_payloads_exact_witness :
    stdoutPayloads (runEvents ([ChildEvent.out "he", ChildEvent.err "w",
        ChildEvent.out "llo"] ++ [ChildEvent.closed 0]))
      = outChunks [ChildEvent.out "he", ChildEvent.err "w", ChildEvent.out "llo"] ∧
    String.join (stdoutPayloads (runEvents ([ChildEvent.out "he", ChildEvent.err "w",
        ChildEvent.out "llo"] ++ [ChildEvent.closed 0])))
      = String.join (outChunks [ChildEvent.out "he", ChildEvent.err "w",
        ChildEvent.out "llo"]) ∧
    runEvents ([ChildEvent.out "he", ChildEvent.err "w",
        ChildEvent.out "llo"] ++ [ChildEvent.closed 0])
      = [ChildEvent.out "he", ChildEvent.err "w", ChildEvent.out "llo"].map eventFor
        ++ [StreamEvent.complete 0 true (completeMessage 0)] ∧
    ((runEvents ([ChildEvent.out "he", ChildEvent.err "w",
        ChildEvent.out "llo"] ++ [ChildEvent.closed 0])).filter isComplete).length = 1 :=
  stdout_payloads_exact
    [ChildEvent.out "he", ChildEvent.err "w", ChildEvent.out "llo"] (by decide)

/-- C9 counterexample: in src/server/index.js a request with no uploaded
file produces an argument list with no guide-path flag at all; the sentinel
literal none never appears. -/
theorem args_guide_sentinel_counterexample :
    handleRun ⟨⟨some "https://example.com/p", some "1", some (.str "true"), none⟩, none⟩
      = .ok ["-u", "https://example.com/p", "-e", "1", "-s", "y"] ∧
    "none" ∉ ["-u", "https://example.com/p", "-e", "1", "-s", "y"] ∧
    "-g" ∉ ["-u", "https://example.com/p", "-e", "1", "-s", "y"] :=
  ⟨rfl, by decide, by decide⟩

/-- C9 (amended): for every accepted run request the argument list has the
fixed order project-URL flag, episode-range flag, guide-path flag,
notification-enabled flag, optional template flag; the guide-path flag
carries the uploaded file's temporary path when present, and when absent the
variant in src/unnamed/part_001 substitutes the sentinel literal none while
src/server/index.js omits the guide-path flag pair entirely. -/
theorem args_fixed_order (req : RunReq) (args argsV : List String)
    (h1 : handleRun req = .ok args) (h2 : handleRunP1 req = .ok argsV) :
    args = ["-u", req.body.projectUrl.getD "", "-e", req.body.episodes.getD ""]
        ++ (if req.file.getD "" ≠ "" then ["-g", req.file.getD ""] else [])
        ++ ["-s", slackFlag (req.body.slackEnabled.getD (.str "y"))]
        ++ (if req.body.slackTemplate.getD "" ≠ ""
              ∧ jsTrim (req.body.slackTemplate.getD "") ≠ ""
            then ["-t", req.body.slackTemplate.getD ""] else []) ∧
    argsV = ["-u", req.body.projectUrl.getD "", "-e", req.body.episodes.getD "",
             "-g", if req.file.getD "" ≠ "" then req.file.getD "" else "none",
             "-s", slackFlag (req.body.slackEnabled.getD (.str "y"))]
        ++ (if req.body.slackTemplate.getD "" ≠ ""
              ∧ jsTrim (req.body.slackTemplate.getD "") ≠ ""
            then ["-t", req.body.slackTemplate.getD ""] else []) := by
  by_cases hc : req.body.projectUrl.getD "" = "" ∨ req.body.episodes.getD "" = ""
  · simp only [handleRun, if_pos hc] at h1
    cases h1
  · simp only [handleRun, if_neg hc] at h1
    simp only [handleRunP1, if_neg hc] at h2
    injection h1 with h1
    injection h2 with h2
    constructor
    · rw [← h1, buildArgs]
    · rw [← h2, buildArgsP1]
      by_cases hg : req.file.getD "" ≠ ""
      · rw [if_pos hg, if_pos hg]
        simp
      · rw [if_neg hg, if_neg hg]
        simp

/-- C9 witness: a request with an uploaded guide file is accepted by both
server variants and both argument lists have the fixed order. -/
theorem args_fixed_order_witness :
    ["-u", "u", "-e", "1-3", "-g", "/tmp/g1", "-s", "n", "-t", "hello"]
      = ["-u", "u", "-e", "1-3"]
        ++ (if ("/tmp/g1" : String) ≠ "" then ["-g", "/tmp/g1"] else [])
        ++ ["-s", slackFlag (JSVal.str "y")]
        ++ (if ("hello" : String) ≠ "" ∧ jsTrim "hello" ≠ ""
            then ["-t", "hello"] else []) ∧
    ["-u", "u", "-e", "1-3", "-g", "/tmp/g1", "-s", "n", "-t", "hello"]
      = ["-u", "u", "-e", "1-3", "-g",
          if ("/tmp/g1" : String) ≠ "" then "/tmp/g1" else "none",
          "-s", slackFlag (JSVal.str "y")]
        ++ (if ("hello" : String) ≠ "" ∧ jsTrim "hello" ≠ ""
            then ["-t", "hello"] else []) :=
  args_fixed_order ⟨⟨some "u", some "1-3", none, some "hello"⟩, some "/tmp/g1"⟩
    ["-u", "u", "-e", "1-3", "-g", "/tmp/g1", "-s", "n", "-t", "hello"]
    ["-u", "u", "-e", "1-3", "-g", "/tmp/g1", "-s", "n", "-t", "hello"]
    rfl rfl

/-- C10: the notification flag value is y exactly when slackEnabled is
boolean true or the string true; any other value, including the string y and
the server-side default y used when the field is absent, maps to n. -/
theorem slack_flag_y_iff :
    (∀ v : JSVal, slackFlag v = "y" ↔ (v = .bool true ∨ v = .str "true")) ∧
    slackFlag (.str "y") = "n" ∧
    slackFlag ((none : Option JSVal).getD (.str "y")) = "n" ∧
    slackFlag (.bool false) = "n" := by
  refine ⟨fun v => ?_, by decide, by decide, by decide⟩
  constructor
  · intro hy
    by_contra hne
    rw [slackFlag, if_neg hne] at hy
    exact absurd hy (by decide)
  · intro hv
    rw [slackFlag, if_pos hv]

end FeedbackMaster
